import Mathlib

/-!
Verification development for the RTMP-to-WebRTC relay server (`main.go`).

The Go program is shallowly embedded: pure control flow becomes Lean
functions, the fallible calls into the pion WebRTC library become oracles
(an environment record saying which call fails and with which message),
and the effects the program performs (setting descriptions, waiting for
ICE gathering, writing messages on the WebSocket) are recorded in an
explicit trace.  The pion `samplebuilder` package is not part of this
repository's sources, so it is modelled from the specification's
description of the Reassembler (bounded window of pending packets keyed
by sequence number, codec-specific depacketization, forced skip when the
window would otherwise overflow).
-/

/-! ## Transport packets and media samples -/

/-- An RTP transport packet: header (sequence number, timestamp,
payload-type identifier, marker bit) plus opaque payload bytes. -/
structure RPacket where
  seq : Nat
  timestamp : Nat
  marker : Bool
  payloadType : Nat
  payload : List Nat
deriving DecidableEq, Repr

/-- A reassembled media sample: ordered payload bytes plus a timestamp. -/
structure Sample where
  data : List Nat
  timestamp : Nat
deriving DecidableEq, Repr

/-- The codec-specific depacketization strategy: `codecs.VP8Packet` or
`codecs.OpusPacket` in the source. -/
inductive Depacketizer where
  | vp8
  | opus
deriving DecidableEq, Repr

/-! ## The sample builder (Reassembler)

Modelled from the spec: the pion `samplebuilder` package is an external
library whose code is not in this repository, so its contract is taken
from the specification: "a bounded window of pending packets keyed by
sequence number (size: 10 packets), a codec-specific depacketization
strategy, and a target clock rate"; `push(packet)` records a packet in
the bounded window, `pop()` attempts to emit the next in-order sample; a
sample becomes emittable once the packets completing its frame (the run
of consecutive sequence numbers up to and including a marker-bit packet)
have all arrived, or a forced skip of missing data happens when the
window's capacity would otherwise be exceeded.  Sequence numbers are
modelled as unbounded naturals, and the expected initial sequence number
of the stream (which the library infers from the stream itself) is an
explicit creation parameter `next`. -/
structure SampleBuilder where
  maxLate : Nat
  depack : Depacketizer
  clockRate : Nat
  next : Nat
  window : List RPacket
  forced : Bool
deriving DecidableEq, Repr

/-- Modelled from the spec: `samplebuilder.New(maxLate, depacketizer,
sampleRate)`, with the stream's initial sequence number made explicit. -/
def SampleBuilder.new (maxLate : Nat) (depack : Depacketizer) (clockRate : Nat)
    (base : Nat) : SampleBuilder :=
  { maxLate := maxLate, depack := depack, clockRate := clockRate,
    next := base, window := [], forced := false }

/-- Look a pending packet up by sequence number in the window. -/
def findPkt (w : List RPacket) (s : Nat) : Option RPacket :=
  w.find? (fun p => p.seq == s)

/-- Smallest sequence number buffered in the window (default if empty). -/
def minSeq (w : List RPacket) (dflt : Nat) : Nat :=
  w.foldr (fun p acc => min p.seq acc) dflt

/-- Modelled from the spec: `Push` records the packet in the bounded
window (dropping packets older than the emission point and duplicates);
if the window's capacity would otherwise be exceeded while the next
expected packet is missing, the missing data is skipped (forced skip,
recorded in the `forced` flag). -/
def SampleBuilder.push (r : SampleBuilder) (p : RPacket) : SampleBuilder :=
  if p.seq < r.next then r
  else if (findPkt r.window p.seq).isSome then r
  else
    let r1 : SampleBuilder := { r with window := p :: r.window }
    if r1.maxLate < r1.window.length ∧ findPkt r1.window r1.next = none then
      { r1 with next := minSeq r1.window r1.next, forced := true }
    else r1

/-- Scan forward from sequence number `s` for the end of the frame: the
first marker-bit packet reachable through consecutively present
sequence numbers.  `fuel` bounds the scan (the window is finite). -/
def frameEnd (w : List RPacket) : Nat → Nat → Option Nat
  | _, 0 => none
  | s, fuel + 1 =>
    match findPkt w s with
    | none => none
    | some p => if p.marker then some s else frameEnd w (s + 1) fuel

/-- Concatenate the payloads of `cnt` consecutive packets starting at
sequence number `s`. -/
def collectPayload (w : List RPacket) : Nat → Nat → List Nat
  | _, 0 => []
  | s, cnt + 1 =>
    (match findPkt w s with
     | some p => p.payload
     | none => []) ++ collectPayload w (s + 1) cnt

/-- Modelled from the spec: `Pop` attempts to emit the next in-order
sample; it succeeds exactly when the frame starting at the next expected
sequence number is complete up to its marker packet. -/
def SampleBuilder.pop (r : SampleBuilder) : Option (Sample × SampleBuilder) :=
  match frameEnd r.window r.next r.window.length with
  | none => none
  | some m =>
    let ts : Nat :=
      match findPkt r.window r.next with
      | some p => p.timestamp
      | none => 0
    some ({ data := collectPayload r.window r.next (m + 1 - r.next), timestamp := ts },
          { r with next := m + 1, window := r.window.filter (fun p => m < p.seq) })

/-- The source's `for { sample := buffer.Pop(); if sample == nil break }`
loop: drain every sample the builder is willing to emit. -/
def drainGo : Nat → SampleBuilder → List Sample × SampleBuilder
  | 0, r => ([], r)
  | fuel + 1, r =>
    match r.pop with
    | none => ([], r)
    | some (s, r1) =>
      let rec' := drainGo fuel r1
      (s :: rec'.1, rec'.2)

/-- Drain with enough fuel: each successful `pop` removes at least one
packet from the window, so the window length bounds the number of pops. -/
def SampleBuilder.drain (r : SampleBuilder) : List Sample × SampleBuilder :=
  drainGo r.window.length r

/-- One packet's worth of the source's per-packet handling:
`buffer.Push(packet)` followed by the drain loop. -/
def processPacket (p : RPacket) (r : SampleBuilder) : List Sample × SampleBuilder :=
  (r.push p).drain

/-- Feed a list of packets through `processPacket`, accumulating every
emitted sample in order. -/
def runSB : List RPacket → SampleBuilder → List Sample × SampleBuilder
  | [], r => ([], r)
  | p :: ps, r =>
    let st := processPacket p r
    let rest := runSB ps st.2
    (st.1 ++ rest.1, rest.2)

/-! ## The media ingest loop (`handleMedia`) -/

/-- The two sample builders constructed by `handleMedia`:
`samplebuilder.New(10, &codecs.VP8Packet{}, 90000)` and
`samplebuilder.New(10, &codecs.OpusPacket{}, 48000)`.  The stream base
sequence numbers are parameters of the model (see `SampleBuilder.new`). -/
def handleMediaBuffers (baseV baseA : Nat) : SampleBuilder × SampleBuilder :=
  (SampleBuilder.new 10 Depacketizer.vp8 90000 baseV,
   SampleBuilder.new 10 Depacketizer.opus 48000 baseA)

/-- The mutable state touched by the ingest loop's dispatch: the two
sample builders and the samples written so far into each outgoing track
(`WriteSample` is modelled as an append; a write failure is logged by
the source and changes nothing else). -/
structure MediaState where
  videoBuffer : SampleBuilder
  audioBuffer : SampleBuilder
  videoTrackSamples : List Sample
  audioTrackSamples : List Sample
deriving DecidableEq, Repr

/-- The `switch packet.PayloadType` dispatch of `handleMedia`: 96 goes to
the video builder and video track, 111 to the audio builder and audio
track, anything else falls through the switch unchanged. -/
def handleMediaDispatch (p : RPacket) (st : MediaState) : MediaState :=
  if p.payloadType = 96 then
    let d := processPacket p st.videoBuffer
    { st with videoBuffer := d.2, videoTrackSamples := st.videoTrackSamples ++ d.1 }
  else if p.payloadType = 111 then
    let d := processPacket p st.audioBuffer
    { st with audioBuffer := d.2, audioTrackSamples := st.audioTrackSamples ++ d.1 }
  else st

/-- One observable event per iteration of the ingest loop's inner
goroutine: the shutdown signal is readable, the UDP read timed out, the
UDP read failed with another error, or a datagram arrived and
`packet.Unmarshal` produced either a packet or an error. -/
inductive IngestEvent where
  | stopSignaled
  | readTimeout
  | readFailure (e : String)
  | datagram (parsed : Except String RPacket)
deriving Repr

/-- One iteration of the ingest loop body: `none` means the loop returns
(only on the shutdown signal); otherwise the next state plus the log
lines that iteration emitted. -/
def ingestStep (ev : IngestEvent) (st : MediaState) :
    Option MediaState × List String :=
  match ev with
  | .stopSignaled => (none, [])
  | .readTimeout => (some st, [])
  | .readFailure e => (some st, ["Error during read: " ++ e])
  | .datagram (.error e) => (some st, ["Error unmarshaling RTP packet: " ++ e])
  | .datagram (.ok p) => (some (handleMediaDispatch p st), [])

/-- The ingest loop over a finite schedule of events. -/
def ingestLoop : List IngestEvent → MediaState → MediaState × List String
  | [], st => (st, [])
  | ev :: evs, st =>
    match ingestStep ev st with
    | (none, lg) => (st, lg)
    | (some st1, lg) =>
      let rest := ingestLoop evs st1
      (rest.1, lg ++ rest.2)

/-! ## Signaling: data model -/

/-- `webrtc.SessionDescription`, abstracted: its type tag, the media
sections (tracks) it describes, and the ICE candidates gathered into it. -/
structure SessionDescription where
  sdpType : String
  tracks : List String
  candidates : List String
deriving DecidableEq, Repr

/-- `webrtc.ICECandidateInit`, abstracted to its candidate string. -/
abbrev ICECandidateInit := String

/-- `SignalingMessage` from the source: a `type` tag plus the optional
`sdp`, `ice` and `error` payload fields. -/
structure SigMsg where
  type : String
  sdp : Option SessionDescription
  ice : Option ICECandidateInit
  errText : Option String
deriving DecidableEq, Repr

/-- An outgoing media track (`webrtc.TrackLocalStaticSample`): its MIME
type, track id and stream id, as passed to `NewTrackLocalStaticSample`. -/
structure TrackLocal where
  mimeType : String
  trackId : String
  streamId : String
deriving DecidableEq, Repr

/-- The video track the source creates: VP8, id "video", stream "pion". -/
def videoTrackDef : TrackLocal :=
  { mimeType := "video/VP8", trackId := "video", streamId := "pion" }

/-- The audio track the source creates: Opus, id "audio", stream "pion". -/
def audioTrackDef : TrackLocal :=
  { mimeType := "audio/opus", trackId := "audio", streamId := "pion" }

/-- The state of the `webrtc.PeerConnection` as far as the embedded
program observes it: the registered outgoing tracks, the remote and
local descriptions, the remote candidates added so far, and whether it
has been closed. -/
structure PeerConnection where
  tracks : List TrackLocal
  remoteDesc : Option SessionDescription
  localDesc : Option SessionDescription
  remoteCandidates : List ICECandidateInit
  closed : Bool
deriving DecidableEq, Repr

/-- A Go channel of `struct{}` used only for its closedness. -/
structure GoChan where
  isClosed : Bool
deriving DecidableEq, Repr

/-- The outcome of running a piece of Go code: a normal value, an error
return, or a runtime panic. -/
inductive Outcome (α : Type) where
  | ok : α → Outcome α
  | err : String → Outcome α
  | panicked : String → Outcome α
deriving DecidableEq, Repr

/-- `close(ch)` on a Go channel: closing an already-closed channel
panics. -/
def closeChan (c : GoChan) : Outcome GoChan :=
  if c.isClosed then .panicked "close of closed channel"
  else .ok { isClosed := true }

/-- The `WebRTCManager` of the source: peer connection, the two tracks,
the shutdown channel and the (lazily created) UDP listener.  The
WebSocket handle is represented by the outbound-message lists the
embedded functions return, and the mutex is not modelled (the claims
under verification are not about interleavings). -/
structure WebRTCManager where
  peerConnection : PeerConnection
  videoTrack : TrackLocal
  audioTrack : TrackLocal
  stopChan : GoChan
  udpListener : Option Unit
deriving DecidableEq, Repr

/-- Trace of the effects the embedded signaling code performs, in
program order. -/
inductive Effect where
  | newPeerConn
  | newTrack (t : TrackLocal)
  | addTrack (t : TrackLocal)
  | setRemoteDesc (d : SessionDescription)
  | createAnswerEff
  | setLocalDesc (d : SessionDescription)
  | waitGatherComplete
  | sendMsg (m : SigMsg)
  | addICECandidateEff (c : ICECandidateInit)
  | closePeerConn
  | closeUDP
deriving DecidableEq, Repr

/-- Oracle for the fallible pion/WebSocket calls `handleOffer` and
`handleICECandidate` make: `none` means the call succeeds, `some e`
means it fails with error text `e`.  `gathered` is the list of ICE
candidates that gathering adds to the local description. -/
structure PCEnv where
  setRemote : Option String
  createAnswer : Option String
  setLocal : Option String
  addICE : Option String
  writeAnswer : Option String
  gathered : List String
deriving DecidableEq, Repr

/-- `CreateAnswer(nil)`: an answer description reflecting the tracks
registered on the peer connection. -/
def mkAnswer (pc : PeerConnection) : SessionDescription :=
  { sdpType := "answer", tracks := pc.tracks.map (fun t => t.mimeType),
    candidates := [] }

/-- `GatheringCompletePromise` + blocking receive: when gathering
completes, the gathered candidates are part of the local description. -/
def gatherComplete (pe : PCEnv) (pc : PeerConnection) : PeerConnection :=
  { pc with localDesc := pc.localDesc.map (fun d => { d with candidates := pe.gathered }) }

/-- `handleOffer` (main.go:200): set the remote description (note the
unconditional dereference of the `*webrtc.SessionDescription` argument),
create an answer, set it as local description, block until ICE gathering
completes, then send the local description as a message of type
"answer".  Returns the outcome, the delivered outbound messages, and the
effect trace. -/
def handleOffer (pe : PCEnv) (m : WebRTCManager) (offer : Option SessionDescription) :
    Outcome (WebRTCManager × List SigMsg) × List Effect :=
  match offer with
  | none => (.panicked "runtime error: invalid memory address or nil pointer dereference", [])
  | some o =>
    match pe.setRemote with
    | some e => (.err ("failed to set remote description: " ++ e), [])
    | none =>
      let pc1 := { m.peerConnection with remoteDesc := some o }
      match pe.createAnswer with
      | some e => (.err ("failed to create answer: " ++ e), [.setRemoteDesc o])
      | none =>
        let ans := mkAnswer pc1
        match pe.setLocal with
        | some e => (.err ("failed to set local description: " ++ e),
                     [.setRemoteDesc o, .createAnswerEff])
        | none =>
          let pc2 := { pc1 with localDesc := some ans }
          let pc3 := gatherComplete pe pc2
          let msg : SigMsg := { type := "answer", sdp := pc3.localDesc,
                                ice := none, errText := none }
          match pe.writeAnswer with
          | some e => (.err ("failed to send answer: " ++ e),
                       [.setRemoteDesc o, .createAnswerEff, .setLocalDesc ans,
                        .waitGatherComplete])
          | none => (.ok ({ m with peerConnection := pc3 }, [msg]),
                     [.setRemoteDesc o, .createAnswerEff, .setLocalDesc ans,
                      .waitGatherComplete, .sendMsg msg])

/-- `handleICECandidate` (main.go:238): a nil candidate is accepted as a
no-op; otherwise the candidate is registered with `AddICECandidate`. -/
def handleICECandidate (pe : PCEnv) (m : WebRTCManager)
    (cand : Option ICECandidateInit) :
    Outcome (WebRTCManager × List SigMsg) × List Effect :=
  match cand with
  | none => (.ok (m, []), [])
  | some c =>
    match pe.addICE with
    | some e => (.err e, [.addICECandidateEff c])
    | none =>
      (.ok ({ m with peerConnection :=
                { m.peerConnection with
                    remoteCandidates := m.peerConnection.remoteCandidates ++ [c] } },
             []),
       [.addICECandidateEff c])

/-- `handleSignalingMessage` (main.go:189): dispatch on the `type` tag;
unknown types fail with an error carrying the offending type string. -/
def handleSignalingMessage (pe : PCEnv) (m : WebRTCManager) (msg : SigMsg) :
    Outcome (WebRTCManager × List SigMsg) × List Effect :=
  if msg.type = "offer" then handleOffer pe m msg.sdp
  else if msg.type = "ice" then handleICECandidate pe m msg.ice
  else (.err ("unknown message type: " ++ msg.type), [])

/-- One inbound event on the WebSocket read loop: either a decoded
message or a read error (which breaks the loop). -/
inductive WsEvent where
  | msg (s : SigMsg)
  | readFailure (e : String)
deriving Repr

/-- Prepend a log line to a loop outcome. -/
def addLog (s : String) :
    Outcome (WebRTCManager × List String × List SigMsg) →
    Outcome (WebRTCManager × List String × List SigMsg)
  | .ok (m, lgs, outs) => .ok (m, s :: lgs, outs)
  | r => r

/-- The WebSocket read loop of `handleWebRTCConnection` (main.go:80): a
read error breaks the loop; a handler error is logged and the loop
continues with the next message.  Returns the final manager, the log
lines, and all delivered outbound messages. -/
def wsLoop (pe : PCEnv) : List WsEvent → WebRTCManager →
    Outcome (WebRTCManager × List String × List SigMsg)
  | [], m => .ok (m, [], [])
  | .readFailure e :: _, m => .ok (m, ["WebSocket read error: " ++ e], [])
  | .msg s :: rest, m =>
    match handleSignalingMessage pe m s with
    | (.panicked p, _) => .panicked p
    | (.err e, _) => addLog ("Failed to handle signaling message: " ++ e) (wsLoop pe rest m)
    | (.ok (m1, out), _) =>
      match wsLoop pe rest m1 with
      | .ok (m2, lgs, outs) => .ok (m2, lgs, out ++ outs)
      | r => r

/-! ## Session construction (`newWebRTCManager`) and teardown (`close`) -/

/-- Oracle for the fallible calls `newWebRTCManager` makes, in program
order: `RegisterDefaultCodecs`, `NewPeerConnection`, the two
`NewTrackLocalStaticSample` calls and the two `AddTrack` calls. -/
structure NewEnv where
  registerCodecs : Option String
  newPeerConn : Option String
  newVideoTrack : Option String
  newAudioTrack : Option String
  addVideoTrack : Option String
  addAudioTrack : Option String
deriving DecidableEq, Repr

/-- `newWebRTCManager` (main.go:94): create the peer connection, create
and register the two tracks (closing the peer connection on every
failure path after its creation), and hand back the manager with a
fresh, open stop channel and no UDP listener yet. -/
def newWebRTCManager (ne : NewEnv) : Outcome WebRTCManager × List Effect :=
  match ne.registerCodecs with
  | some e => (.err ("failed to register default codecs: " ++ e), [])
  | none =>
    match ne.newPeerConn with
    | some e => (.err ("failed to create peer connection: " ++ e), [])
    | none =>
      match ne.newVideoTrack with
      | some e => (.err ("failed to create video track: " ++ e),
                   [.newPeerConn, .closePeerConn])
      | none =>
        match ne.newAudioTrack with
        | some e => (.err ("failed to create audio track: " ++ e),
                     [.newPeerConn, .newTrack videoTrackDef, .closePeerConn])
        | none =>
          match ne.addVideoTrack with
          | some e => (.err ("failed to add video track: " ++ e),
                       [.newPeerConn, .newTrack videoTrackDef,
                        .newTrack audioTrackDef, .closePeerConn])
          | none =>
            match ne.addAudioTrack with
            | some e => (.err ("failed to add audio track: " ++ e),
                         [.newPeerConn, .newTrack videoTrackDef,
                          .newTrack audioTrackDef, .addTrack videoTrackDef,
                          .closePeerConn])
            | none =>
              (.ok { peerConnection :=
                       { tracks := [videoTrackDef, audioTrackDef],
                         remoteDesc := none, localDesc := none,
                         remoteCandidates := [], closed := false },
                     videoTrack := videoTrackDef,
                     audioTrack := audioTrackDef,
                     stopChan := { isClosed := false },
                     udpListener := none },
               [.newPeerConn, .newTrack videoTrackDef, .newTrack audioTrackDef,
                .addTrack videoTrackDef, .addTrack audioTrackDef])

/-- `close` (main.go:314): close the stop channel (a Go `close`, which
panics on an already-closed channel), close the UDP listener if it
exists, then close the peer connection. -/
def managerClose (m : WebRTCManager) : Outcome WebRTCManager :=
  match closeChan m.stopChan with
  | .panicked p => .panicked p
  | .err e => .err e
  | .ok ch =>
    let m1 := { m with stopChan := ch }
    let m2 :=
      match m1.udpListener with
      | some _ => { m1 with udpListener := none }
      | none => m1
    .ok { m2 with peerConnection := { m2.peerConnection with closed := true } }

/-! ## Packet streams partitioned into frames

For the reordering property (§8 of the spec) we describe an RTP stream
as a list of frames, each frame a nonempty list of packet payloads; the
packets carry consecutive sequence numbers starting at `base`, the
marker bit is set exactly on the last packet of each frame, and each
packet's timestamp is its frame index. -/

section FrameStream

variable (fr : List (List (List Nat))) (base : Nat)

/-- Global index of the first packet of frame `j` (total packet count of
the first `j` frames). -/
def startIdx : Nat → Nat
  | 0 => 0
  | j + 1 => startIdx j + (fr.getD j []).length

/-- Total number of packets in the stream. -/
def numPk : Nat := startIdx fr fr.length

/-- Helper scan for `frameOf`. -/
def frameOfGo (i : Nat) : Nat → Nat → Nat
  | j, 0 => j
  | j, rem + 1 => if startIdx fr (j + 1) ≤ i then frameOfGo i (j + 1) rem else j

/-- The frame a global packet index belongs to. -/
def frameOf (i : Nat) : Nat := frameOfGo fr i 0 fr.length

/-- The packet at global index `i` of the stream. -/
def pkt (i : Nat) : RPacket :=
  { seq := base + i, timestamp := frameOf fr i,
    marker := decide (i + 1 = startIdx fr (frameOf fr i + 1)),
    payloadType := 96,
    payload := (fr.getD (frameOf fr i) []).getD (i - startIdx fr (frameOf fr i)) [] }

/-- `d` consecutive naturals starting at `s`. -/
def idxRun : Nat → Nat → List Nat
  | _, 0 => []
  | s, d + 1 => s :: idxRun (s + 1) d

/-- The whole stream in strictly increasing sequence order. -/
def mkPackets : List RPacket := (idxRun 0 (numPk fr)).map (pkt fr base)

/-- Concatenation of a list of payloads. -/
def concatAll : List (List Nat) → List Nat
  | [] => []
  | a :: rest => a ++ concatAll rest

/-- The sample frame `j` reassembles to: its payloads in order, stamped
with the frame's timestamp. -/
def sampleOf (j : Nat) : Sample := { data := concatAll (fr.getD j []), timestamp := j }

/-- The samples of frames `j, j+1, …, j+d-1` in order. -/
def sliceE : Nat → Nat → List Sample
  | _, 0 => []
  | j, d + 1 => sampleOf fr j :: sliceE (j + 1) d

/-- Frame `j` is complete relative to the set `S` of received packet
indices. -/
def frameFull (S : Finset Nat) (j : Nat) : Prop :=
  ∀ i ∈ Finset.Ico (startIdx fr j) (startIdx fr (j + 1)), i ∈ S

instance frameFullDec (S : Finset Nat) (j : Nat) : Decidable (frameFull fr S j) :=
  Finset.decidableDforallFinset

/-- Helper scan for `doneCnt`: advance the frame pointer past complete
frames. -/
def doneFrom (S : Finset Nat) : Nat → Nat → Nat
  | j, 0 => j
  | j, rem + 1 => if frameFull fr S j then doneFrom S (j + 1) rem else j

/-- Number of leading frames that are complete relative to `S` (the
frames an in-order reassembler has emitted). -/
def doneCnt (S : Finset Nat) : Nat := doneFrom fr S 0 fr.length

/-- The canonical window-lookup function once the frame pointer is at
frame `j` and the set of received packet indices is `S`. -/
def canonFind (S : Finset Nat) (j s : Nat) : Option RPacket :=
  if base ≤ s ∧ (s - base) ∈ S ∧ s - base < numPk fr ∧ startIdx fr j ≤ s - base
  then some (pkt fr base (s - base)) else none

/-- The canonical-state relation: a builder state is in canonical form
for received-set `S` with frame pointer `j` when its next expected
sequence number is the start of frame `j`, its window holds exactly the
received packets from frame `j` on, and no forced skip has happened. -/
def Rj (S : Finset Nat) (j : Nat) (r : SampleBuilder) : Prop :=
  r.next = base + startIdx fr j ∧
  (∀ s, findPkt r.window s = canonFind fr base S j s) ∧
  r.forced = false

end FrameStream

/-! ## Concrete instances used by the witness statements -/

/-- An oracle under which every pion/WebSocket call succeeds and
gathering discovers one host candidate. -/
def pe0 : PCEnv :=
  { setRemote := none, createAnswer := none, setLocal := none,
    addICE := none, writeAnswer := none, gathered := ["candidate:host"] }

/-- An oracle under which every construction call succeeds. -/
def ne0 : NewEnv :=
  { registerCodecs := none, newPeerConn := none, newVideoTrack := none,
    newAudioTrack := none, addVideoTrack := none, addAudioTrack := none }

/-- An oracle under which creating the video track fails. -/
def neBadVideo : NewEnv :=
  { ne0 with newVideoTrack := some "no codec" }

/-- A freshly constructed session: open stop channel, no UDP listener. -/
def session0 : WebRTCManager :=
  { peerConnection :=
      { tracks := [videoTrackDef, audioTrackDef], remoteDesc := none,
        localDesc := none, remoteCandidates := [], closed := false },
    videoTrack := videoTrackDef, audioTrack := audioTrackDef,
    stopChan := { isClosed := false }, udpListener := none }

/-- The state `close` leaves behind on its success path. -/
def afterClose (m : WebRTCManager) : WebRTCManager :=
  { m with stopChan := { isClosed := true }, udpListener := none,
           peerConnection := { m.peerConnection with closed := true } }

/-- A remote offer description. -/
def sd0 : SessionDescription :=
  { sdpType := "offer", tracks := ["video/VP8", "audio/opus"], candidates := [] }

/-- The local description `handleOffer` ends up sending under oracle
`pe`: an answer reflecting the two registered tracks, augmented with the
gathered candidates. -/
def c1AnswerSdp (pe : PCEnv) : SessionDescription :=
  { sdpType := "answer", tracks := ["video/VP8", "audio/opus"],
    candidates := pe.gathered }

/-- The outbound answer message `handleOffer` sends under oracle `pe`. -/
def c1AnswerMsg (pe : PCEnv) : SigMsg :=
  { type := "answer", sdp := some (c1AnswerSdp pe), ice := none, errText := none }

/-- Is an effect an outbound control-channel write? -/
def isSendEff : Effect → Bool
  | .sendMsg _ => true
  | _ => false

/-- `{"type":"bogus"}`. -/
def bogusMsg : SigMsg := { type := "bogus", sdp := none, ice := none, errText := none }

/-- `{"type":"ice","ice":null}`. -/
def iceNullMsg : SigMsg := { type := "ice", sdp := none, ice := none, errText := none }

/-- `{"type":"offer"}` with the sdp field absent. -/
def offerNilMsg : SigMsg := { type := "offer", sdp := none, ice := none, errText := none }

/-- The single three-packet video frame of the §8 scenario. -/
def frScenario : List (List (List Nat)) := [[[10], [20], [30]]]

/-- The video sample builder at stream base sequence number 1. -/
def vInit : SampleBuilder := SampleBuilder.new 10 Depacketizer.vp8 90000 1

/-- Scenario packets: sequence numbers 1, 2, 3 of one video frame. -/
def sp1 : RPacket := pkt frScenario 1 0

/-- Scenario packet with sequence number 2. -/
def sp2 : RPacket := pkt frScenario 1 1

/-- Scenario packet with sequence number 3 (marker). -/
def sp3 : RPacket := pkt frScenario 1 2

/-- An initial media-ingest state built from `handleMediaBuffers`. -/
def st0 : MediaState :=
  { videoBuffer := (handleMediaBuffers 0 0).1,
    audioBuffer := (handleMediaBuffers 0 0).2,
    videoTrackSamples := [], audioTrackSamples := [] }

/-- A packet with a payload-type identifier the dispatch drops. -/
def pkt97 : RPacket :=
  { seq := 0, timestamp := 0, marker := true, payloadType := 97, payload := [1] }

/-- A single-packet video frame with payload-type 96. -/
def pkt96 : RPacket :=
  { seq := 0, timestamp := 0, marker := true, payloadType := 96, payload := [1] }

/-- A single-packet audio frame with payload-type 111. -/
def pkt111 : RPacket :=
  { seq := 0, timestamp := 0, marker := true, payloadType := 111, payload := [2] }

/-! ## Claim theorems -/

/-- C2 counterexample: the claim that calling `close()` twice cannot
panic is false on the code — the second call reaches `close(m.stopChan)`
with an already-closed channel, and Go panics on closing a closed
channel.  Concretely, closing a fresh session succeeds, and closing the
resulting session panics. -/
theorem c2_close_twice_panics :
    managerClose session0 = .ok (afterClose session0) ∧
    managerClose (afterClose session0) = .panicked "close of closed channel" := by
  constructor <;> rfl

/-- C2 (amended): calling `close()` once on a Session whose shutdown
channel is still open — in particular on one whose ingest socket was
never opened (`udpListener` nil) — does not fail or panic; but calling
`close()` a second time panics, because the shutdown channel is closed
again and closing an already-closed Go channel panics. -/
theorem c2_close_once_safe (m : WebRTCManager)
    (h : m.stopChan.isClosed = false) :
    managerClose m = .ok (afterClose m) ∧
    managerClose (afterClose m) = .panicked "close of closed channel" := by
  constructor
  · cases hm : m.udpListener <;>
      simp [managerClose, closeChan, h, afterClose, hm]
  · simp [managerClose, closeChan, afterClose]

/-- C2 witness: the amended statement at the fresh session. -/
theorem c2_close_once_safe_witness :
    session0.stopChan.isClosed = false ∧
    managerClose session0 = .ok (afterClose session0) ∧
    managerClose (afterClose session0) = .panicked "close of closed channel" :=
  ⟨rfl, c2_close_once_safe session0 rfl⟩

/-- C3: a signaling message whose type is neither "offer" nor "ice"
makes `handleSignalingMessage` fail with an error carrying the offending
type string, delivers no outbound message, and the read loop merely logs
the error and continues with the subsequent messages. -/
theorem c3_unknown_type_logged_and_skipped (pe : PCEnv) (m : WebRTCManager)
    (msg : SigMsg) (rest : List WsEvent)
    (h1 : msg.type ≠ "offer") (h2 : msg.type ≠ "ice") :
    handleSignalingMessage pe m msg =
      (.err ("unknown message type: " ++ msg.type), []) ∧
    wsLoop pe (.msg msg :: rest) m =
      addLog ("Failed to handle signaling message: " ++
              ("unknown message type: " ++ msg.type))
        (wsLoop pe rest m) := by
  have hh : handleSignalingMessage pe m msg =
      (.err ("unknown message type: " ++ msg.type), []) := by
    simp [handleSignalingMessage, h1, h2]
  exact ⟨hh, by simp [wsLoop, hh]⟩

/-- C3 witness: the bogus message at a concrete session. -/
theorem c3_unknown_type_witness :
    bogusMsg.type ≠ "offer" ∧ bogusMsg.type ≠ "ice" ∧
    handleSignalingMessage pe0 session0 bogusMsg =
      (.err ("unknown message type: " ++ bogusMsg.type), []) ∧
    wsLoop pe0 (.msg bogusMsg :: []) session0 =
      addLog ("Failed to handle signaling message: " ++
              ("unknown message type: " ++ bogusMsg.type))
        (wsLoop pe0 [] session0) := by
  refine ⟨by decide, by decide, ?_⟩
  exact c3_unknown_type_logged_and_skipped pe0 session0 bogusMsg []
    (by decide) (by decide)

/-- C4: an "ice" message with a null/absent candidate is a no-op —
`handleICECandidate` returns no error, registers nothing, and produces
no outbound message; a present candidate is registered via
`AddICECandidate`. -/
theorem c4_ice_null_is_noop (pe : PCEnv) (m : WebRTCManager) (msg : SigMsg)
    (c : ICECandidateInit)
    (hmsg : msg.type = "ice") (hnull : msg.ice = none) :
    handleICECandidate pe m none = (.ok (m, []), []) ∧
    handleSignalingMessage pe m msg = (.ok (m, []), []) ∧
    (pe.addICE = none →
      handleICECandidate pe m (some c) =
        (.ok ({ m with peerConnection :=
                  { m.peerConnection with
                      remoteCandidates := m.peerConnection.remoteCandidates ++ [c] } },
               []),
         [.addICECandidateEff c])) := by
  refine ⟨rfl, ?_, ?_⟩
  · simp [handleSignalingMessage, hmsg, hnull, handleICECandidate]
  · intro hok
    simp [handleICECandidate, hok]

/-- C4 witness: the `{"type":"ice","ice":null}` scenario message. -/
theorem c4_ice_null_witness :
    iceNullMsg.type = "ice" ∧ iceNullMsg.ice = none ∧
    handleICECandidate pe0 session0 none = (.ok (session0, []), []) ∧
    handleSignalingMessage pe0 session0 iceNullMsg = (.ok (session0, []), []) := by
  refine ⟨rfl, rfl, ?_, ?_⟩
  · exact (c4_ice_null_is_noop pe0 session0 iceNullMsg "cand" rfl rfl).1
  · exact (c4_ice_null_is_noop pe0 session0 iceNullMsg "cand" rfl rfl).2.1

/-- C5: the ingest dispatch is keyed on the payload-type identifier: 96
feeds the video sample builder and appends the drained samples to the
video track, leaving the audio side untouched; 111 does the same on the
audio side; every other identifier leaves the whole state unchanged. -/
theorem c5_payload_type_dispatch (p : RPacket) (st : MediaState) :
    (p.payloadType = 96 →
      handleMediaDispatch p st =
        { st with videoBuffer := (processPacket p st.videoBuffer).2,
                  videoTrackSamples :=
                    st.videoTrackSamples ++ (processPacket p st.videoBuffer).1 }) ∧
    (p.payloadType = 111 →
      handleMediaDispatch p st =
        { st with audioBuffer := (processPacket p st.audioBuffer).2,
                  audioTrackSamples :=
                    st.audioTrackSamples ++ (processPacket p st.audioBuffer).1 }) ∧
    (p.payloadType ≠ 96 → p.payloadType ≠ 111 → handleMediaDispatch p st = st) := by
  refine ⟨fun h => ?_, fun h => ?_, fun h1 h2 => ?_⟩
  · simp [handleMediaDispatch, h]
  · simp [handleMediaDispatch, h]
  · simp [handleMediaDispatch, h1, h2]

/-- C5 witness: payload types 96, 111 and 97 at a concrete state. -/
theorem c5_payload_type_dispatch_witness :
    (pkt96.payloadType = 96 ∧
      handleMediaDispatch pkt96 st0 =
        { st0 with videoBuffer := (processPacket pkt96 st0.videoBuffer).2,
                   videoTrackSamples :=
                     st0.videoTrackSamples ++ (processPacket pkt96 st0.videoBuffer).1 }) ∧
    (pkt111.payloadType = 111 ∧
      handleMediaDispatch pkt111 st0 =
        { st0 with audioBuffer := (processPacket pkt111 st0.audioBuffer).2,
                   audioTrackSamples :=
                     st0.audioTrackSamples ++ (processPacket pkt111 st0.audioBuffer).1 }) ∧
    (pkt97.payloadType ≠ 96 ∧ pkt97.payloadType ≠ 111 ∧
      handleMediaDispatch pkt97 st0 = st0) :=
  ⟨⟨rfl, (c5_payload_type_dispatch pkt96 st0).1 rfl⟩,
   ⟨rfl, (c5_payload_type_dispatch pkt111 st0).2.1 rfl⟩,
   ⟨by decide, by decide,
    (c5_payload_type_dispatch pkt97 st0).2.2 (by decide) (by decide)⟩⟩

/-- C6: each session constructs exactly two sample builders — the pair
built by `handleMedia` — both with a window bound of 10 packets, the
video one with VP8 depacketization at 90000 Hz, the audio one with Opus
depacketization at 48000 Hz. -/
theorem c6_two_builders_config (baseV baseA : Nat) :
    (handleMediaBuffers baseV baseA).1.maxLate = 10 ∧
    (handleMediaBuffers baseV baseA).1.depack = Depacketizer.vp8 ∧
    (handleMediaBuffers baseV baseA).1.clockRate = 90000 ∧
    (handleMediaBuffers baseV baseA).2.maxLate = 10 ∧
    (handleMediaBuffers baseV baseA).2.depack = Depacketizer.opus ∧
    (handleMediaBuffers baseV baseA).2.clockRate = 48000 ∧
    (handleMediaBuffers baseV baseA).1.window = [] ∧
    (handleMediaBuffers baseV baseA).2.window = [] :=
  ⟨rfl, rfl, rfl, rfl, rfl, rfl, rfl, rfl⟩

/-- C8: in the ingest loop a read timeout is a non-error (no log, state
kept, loop continues), any other read error is logged and the loop
continues, and a packet that fails to parse is logged and dropped; only
the shutdown signal terminates the loop. -/
theorem c8_ingest_loop_error_containment (st : MediaState) (e : String)
    (p : RPacket) (evs : List IngestEvent) :
    ingestStep IngestEvent.readTimeout st = (some st, []) ∧
    ingestStep (.readFailure e) st = (some st, ["Error during read: " ++ e]) ∧
    ingestStep (.datagram (.error e)) st =
      (some st, ["Error unmarshaling RTP packet: " ++ e]) ∧
    ingestStep (.datagram (.ok p)) st = (some (handleMediaDispatch p st), []) ∧
    (∀ ev, ev ≠ IngestEvent.stopSignaled → ((ingestStep ev st).1).isSome = true) ∧
    (∀ ev st1, ev ≠ IngestEvent.stopSignaled →
      ingestLoop (ev :: evs) st1 =
        ((ingestLoop evs (((ingestStep ev st1).1).getD st1)).1,
         (ingestStep ev st1).2 ++
           (ingestLoop evs (((ingestStep ev st1).1).getD st1)).2)) := by
  refine ⟨rfl, rfl, rfl, rfl, fun ev hev => ?_, fun ev st1 hev => ?_⟩
  · cases ev with
    | stopSignaled => exact absurd rfl hev
    | readTimeout => rfl
    | readFailure e => rfl
    | datagram r => cases r <;> rfl
  · cases ev with
    | stopSignaled => exact absurd rfl hev
    | readTimeout => rfl
    | readFailure e => rfl
    | datagram r => cases r <;> rfl

/-- C8 witness: the three non-fatal events followed by further events
are all processed. -/
theorem c8_ingest_loop_witness :
    ((ingestStep (.readFailure "oops") st0).1).isSome = true ∧
    ingestStep IngestEvent.readTimeout st0 = (some st0, []) ∧
    ingestLoop [IngestEvent.readTimeout] st0 = (st0, []) :=
  ⟨(c8_ingest_loop_error_containment st0 "oops" pkt96 []).2.2.2.2.1
     (.readFailure "oops") (by simp),
   (c8_ingest_loop_error_containment st0 "oops" pkt96 []).1,
   by rfl⟩

/-- C9: an "offer" message whose sdp payload is absent is routed by
`handleSignalingMessage` to `handleOffer`, which dereferences the nil
description pointer and panics instead of returning an error; the read
loop does not survive it.  The error-containment of the dispatcher thus
does not cover an offer missing its sdp field. -/
theorem c9_offer_nil_sdp_panics (pe : PCEnv) (m : WebRTCManager) (msg : SigMsg)
    (rest : List WsEvent)
    (h1 : msg.type = "offer") (h2 : msg.sdp = none) :
    handleOffer pe m none =
      (.panicked "runtime error: invalid memory address or nil pointer dereference", []) ∧
    handleSignalingMessage pe m msg =
      (.panicked "runtime error: invalid memory address or nil pointer dereference", []) ∧
    wsLoop pe (.msg msg :: rest) m =
      .panicked "runtime error: invalid memory address or nil pointer dereference" := by
  have hh : handleSignalingMessage pe m msg =
      (.panicked "runtime error: invalid memory address or nil pointer dereference", []) := by
    simp [handleSignalingMessage, h1, h2, handleOffer]
  exact ⟨rfl, hh, by simp [wsLoop, hh]⟩

/-- C9 witness: the concrete offer message with absent sdp. -/
theorem c9_offer_nil_sdp_witness :
    offerNilMsg.type = "offer" ∧ offerNilMsg.sdp = none ∧
    handleSignalingMessage pe0 session0 offerNilMsg =
      (.panicked "runtime error: invalid memory address or nil pointer dereference", []) :=
  ⟨rfl, rfl,
   (c9_offer_nil_sdp_panics pe0 session0 offerNilMsg [] rfl rfl).2.1⟩

/-- C10: whenever `newWebRTCManager` fails after the peer connection was
created, the failure path closes the peer connection (exactly once, as
the last effect) before returning the error, so no open transport
session is left behind. -/
theorem c10_construction_failure_closes_pc (ne : NewEnv) (e : String)
    (herr : (newWebRTCManager ne).1 = .err e)
    (hpc : Effect.newPeerConn ∈ (newWebRTCManager ne).2) :
    Effect.closePeerConn ∈ (newWebRTCManager ne).2 ∧
    (newWebRTCManager ne).2.count Effect.closePeerConn = 1 ∧
    (newWebRTCManager ne).2.getLast? = some Effect.closePeerConn := by
  rcases ne with ⟨a, b, c, d, f, g⟩
  cases a <;> cases b <;> cases c <;> cases d <;> cases f <;> cases g <;>
    simp_all [newWebRTCManager, List.count_cons]

/-- C10 witness: a failing video-track creation closes the peer
connection. -/
theorem c10_construction_failure_witness :
    (newWebRTCManager neBadVideo).1 = .err "failed to create video track: no codec" ∧
    Effect.newPeerConn ∈ (newWebRTCManager neBadVideo).2 ∧
    Effect.closePeerConn ∈ (newWebRTCManager neBadVideo).2 :=
  ⟨rfl, by decide,
   (c10_construction_failure_closes_pc neBadVideo
      "failed to create video track: no codec" rfl (by decide)).1⟩

/-- Inversion: the only way `newWebRTCManager` returns a manager is the
all-successes path, and the manager it returns is `session0`. -/
theorem newWebRTCManager_ok_inv (ne : NewEnv) (m : WebRTCManager)
    (effs : List Effect) (hm : newWebRTCManager ne = (.ok m, effs)) :
    m = session0 := by
  rcases ne with ⟨a, b, c, d, f, g⟩
  cases a <;> cases b <;> cases c <;> cases d <;> cases f <;> cases g <;>
    simp_all [newWebRTCManager, session0]

/-- C1: for a session built by `newWebRTCManager` (which registered the
video and audio tracks before any negotiation), handling a valid offer
performs, in order: set remote description, create answer, set local
description, synchronously await ICE-gathering completion, and only then
send exactly one outbound message — an "answer" whose description
reflects the two registered tracks plus the gathered candidates. -/
theorem c1_offer_one_answer_after_gathering (ne : NewEnv) (pe : PCEnv)
    (o : SessionDescription) (m : WebRTCManager) (effsN : List Effect)
    (hm : newWebRTCManager ne = (.ok m, effsN))
    (h1 : pe.setRemote = none) (h2 : pe.createAnswer = none)
    (h3 : pe.setLocal = none) (h4 : pe.writeAnswer = none) :
    m.peerConnection.tracks = [videoTrackDef, audioTrackDef] ∧
    handleOffer pe m (some o) =
      (.ok ({ m with peerConnection :=
                { m.peerConnection with
                    remoteDesc := some o,
                    localDesc := some (c1AnswerSdp pe) } },
            [c1AnswerMsg pe]),
       [Effect.setRemoteDesc o, Effect.createAnswerEff,
        Effect.setLocalDesc
          { sdpType := "answer", tracks := ["video/VP8", "audio/opus"],
            candidates := [] },
        Effect.waitGatherComplete, Effect.sendMsg (c1AnswerMsg pe)]) ∧
    (handleOffer pe m (some o)).2.filter isSendEff =
      [Effect.sendMsg (c1AnswerMsg pe)] := by
  have hms := newWebRTCManager_ok_inv ne m effsN hm
  subst hms
  refine ⟨rfl, ?_, ?_⟩ <;>
    simp [handleOffer, h1, h2, h3, h4, mkAnswer, gatherComplete, session0,
      videoTrackDef, audioTrackDef, c1AnswerMsg, c1AnswerSdp, isSendEff]

/-- C1 witness: the all-successes oracles and a concrete offer. -/
theorem c1_offer_one_answer_witness :
    newWebRTCManager ne0 =
      (.ok session0,
       [Effect.newPeerConn, Effect.newTrack videoTrackDef,
        Effect.newTrack audioTrackDef, Effect.addTrack videoTrackDef,
        Effect.addTrack audioTrackDef]) ∧
    pe0.setRemote = none ∧ pe0.writeAnswer = none ∧
    session0.peerConnection.tracks = [videoTrackDef, audioTrackDef] ∧
    (handleOffer pe0 session0 (some sd0)).2.filter isSendEff =
      [Effect.sendMsg (c1AnswerMsg pe0)] := by
  refine ⟨rfl, rfl, rfl, ?_, ?_⟩
  · exact (c1_offer_one_answer_after_gathering ne0 pe0 sd0 session0 _ rfl
      rfl rfl rfl rfl).1
  · exact (c1_offer_one_answer_after_gathering ne0 pe0 sd0 session0 _ rfl
      rfl rfl rfl rfl).2.2

/-! ## Frame-stream geometry lemmas -/

theorem startIdx_le_succ (fr : List (List (List Nat))) (j : Nat) :
    startIdx fr j ≤ startIdx fr (j + 1) :=
  Nat.le_add_right _ _

theorem startIdx_mono (fr : List (List (List Nat))) {j k : Nat} (h : j ≤ k) :
    startIdx fr j ≤ startIdx fr k := by
  induction h with
  | refl => exact Nat.le_refl _
  | step _ ih => exact Nat.le_trans ih (startIdx_le_succ fr _)

theorem frame_size_pos (fr : List (List (List Nat)))
    (hne : ∀ f ∈ fr, f ≠ []) {j : Nat} (hj : j < fr.length) :
    1 ≤ (fr.getD j []).length := by
  have hmem : fr.getD j [] ∈ fr := by
    rw [List.getD_eq_getElem fr [] hj]
    exact List.getElem_mem hj
  have hne' := hne _ hmem
  exact Nat.one_le_iff_ne_zero.mpr (fun h0 => hne' (List.length_eq_zero.mp h0))

theorem startIdx_strict (fr : List (List (List Nat)))
    (hne : ∀ f ∈ fr, f ≠ []) {j : Nat} (hj : j < fr.length) :
    startIdx fr j < startIdx fr (j + 1) := by
  have := frame_size_pos fr hne hj
  simp only [startIdx]
  omega

theorem startIdx_lt_of_lt (fr : List (List (List Nat)))
    (hne : ∀ f ∈ fr, f ≠ []) {j k : Nat} (h : j < k) (hk : k ≤ fr.length) :
    startIdx fr j < startIdx fr k :=
  Nat.lt_of_lt_of_le (startIdx_strict fr hne (Nat.lt_of_lt_of_le h hk))
    (startIdx_mono fr h)

theorem frameOfGo_bracket (fr : List (List (List Nat))) (i : Nat) :
    ∀ rem j, startIdx fr j ≤ i → i < startIdx fr (j + rem) →
      startIdx fr (frameOfGo fr i j rem) ≤ i ∧
      i < startIdx fr (frameOfGo fr i j rem + 1) ∧
      frameOfGo fr i j rem < j + rem := by
  intro rem
  induction rem with
  | zero =>
    intro j h1 h2
    exact absurd h2 (by simp [Nat.not_lt.mpr h1])
  | succ rem ih =>
    intro j h1 h2
    simp only [frameOfGo]
    by_cases hc : startIdx fr (j + 1) ≤ i
    · simp only [hc, if_true]
      have h2' : i < startIdx fr (j + 1 + rem) := by
        have : j + 1 + rem = j + (rem + 1) := by omega
        rw [this]; exact h2
      have := ih (j + 1) hc h2'
      exact ⟨this.1, this.2.1, by omega⟩
    · simp only [hc, if_false]
      exact ⟨h1, Nat.lt_of_not_ge hc, by omega⟩

theorem frameOf_bracket (fr : List (List (List Nat))) {i : Nat}
    (hi : i < numPk fr) :
    startIdx fr (frameOf fr i) ≤ i ∧
    i < startIdx fr (frameOf fr i + 1) ∧
    frameOf fr i < fr.length := by
  have := frameOfGo_bracket fr i fr.length 0 (by simp [startIdx])
    (by simpa [numPk] using hi)
  simpa [frameOf] using this

theorem frameOf_eq (fr : List (List (List Nat))) {i j : Nat}
    (hi : i < numPk fr)
    (hj1 : startIdx fr j ≤ i) (hj2 : i < startIdx fr (j + 1)) :
    frameOf fr i = j := by
  obtain ⟨b1, b2, _⟩ := frameOf_bracket fr hi
  rcases Nat.lt_trichotomy (frameOf fr i) j with h | h | h
  · have : startIdx fr (frameOf fr i + 1) ≤ startIdx fr j :=
      startIdx_mono fr (Nat.succ_le_of_lt h)
    omega
  · exact h
  · have : startIdx fr (j + 1) ≤ startIdx fr (frameOf fr i) :=
      startIdx_mono fr (Nat.succ_le_of_lt h)
    omega

/-! ## Completed-prefix counter lemmas -/

theorem frameFull_mono (fr : List (List (List Nat))) {S T : Finset Nat}
    {j : Nat} (h : frameFull fr S j) (hST : S ⊆ T) : frameFull fr T j :=
  fun i hi => hST (h i hi)

theorem doneFrom_ge (fr : List (List (List Nat))) (S : Finset Nat) :
    ∀ rem j, j ≤ doneFrom fr S j rem ∧ doneFrom fr S j rem ≤ j + rem := by
  intro rem
  induction rem with
  | zero => intro j; simp [doneFrom]
  | succ rem ih =>
    intro j
    simp only [doneFrom]
    by_cases hc : frameFull fr S j
    · simp only [hc, if_true]
      have := ih (j + 1)
      omega
    · simp only [hc, if_false]
      omega

theorem doneFrom_full (fr : List (List (List Nat))) (S : Finset Nat) :
    ∀ rem j t, j ≤ t → t < doneFrom fr S j rem → frameFull fr S t := by
  intro rem
  induction rem with
  | zero => intro j t h1 h2; simp [doneFrom] at h2; omega
  | succ rem ih =>
    intro j t h1 h2
    simp only [doneFrom] at h2
    by_cases hc : frameFull fr S j
    · simp only [hc, if_true] at h2
      rcases Nat.eq_or_lt_of_le h1 with he | hl
      · exact he ▸ hc
      · exact ih (j + 1) t hl h2
    · simp only [hc, if_false] at h2
      omega

theorem doneFrom_stop (fr : List (List (List Nat))) (S : Finset Nat) :
    ∀ rem j, doneFrom fr S j rem < j + rem →
      ¬ frameFull fr S (doneFrom fr S j rem) := by
  intro rem
  induction rem with
  | zero => intro j h; simp [doneFrom] at h
  | succ rem ih =>
    intro j h
    simp only [doneFrom] at h ⊢
    by_cases hc : frameFull fr S j
    · simp only [if_pos hc] at h ⊢
      exact ih (j + 1) (by omega)
    · simp only [if_neg hc]
      exact hc

theorem doneFrom_ge_of (fr : List (List (List Nat))) (S : Finset Nat) :
    ∀ rem j k, j ≤ k → k ≤ j + rem →
      (∀ t, j ≤ t → t < k → frameFull fr S t) →
      k ≤ doneFrom fr S j rem := by
  intro rem
  induction rem with
  | zero => intro j k h1 h2 _; simp [doneFrom]; omega
  | succ rem ih =>
    intro j k h1 h2 hfull
    simp only [doneFrom]
    rcases Nat.eq_or_lt_of_le h1 with he | hl
    · by_cases hc : frameFull fr S j
      · simp only [if_pos hc]
        have hge := (doneFrom_ge fr S rem (j + 1)).1
        omega
      · simp only [if_neg hc]
        omega
    · have hcj : frameFull fr S j := hfull j (Nat.le_refl _) hl
      simp only [if_pos hcj]
      exact ih (j + 1) k hl (by omega) (fun t h1' h2' => hfull t (by omega) h2')

theorem doneCnt_le (fr : List (List (List Nat))) (S : Finset Nat) :
    doneCnt fr S ≤ fr.length := by
  have := doneFrom_ge fr S fr.length 0
  simpa [doneCnt] using this.2

theorem doneCnt_full (fr : List (List (List Nat))) (S : Finset Nat)
    {t : Nat} (h : t < doneCnt fr S) : frameFull fr S t :=
  doneFrom_full fr S fr.length 0 t (Nat.zero_le _) (by simpa [doneCnt] using h)

theorem doneCnt_stop (fr : List (List (List Nat))) (S : Finset Nat)
    (h : doneCnt fr S < fr.length) : ¬ frameFull fr S (doneCnt fr S) :=
  doneFrom_stop fr S fr.length 0 (by simpa [doneCnt] using h)

theorem doneCnt_mono (fr : List (List (List Nat))) {S T : Finset Nat}
    (hST : S ⊆ T) : doneCnt fr S ≤ doneCnt fr T :=
  doneFrom_ge_of fr T fr.length 0 (doneCnt fr S) (Nat.zero_le _)
    (by simpa using doneCnt_le fr S)
    (fun t _ ht => frameFull_mono fr (doneCnt_full fr S ht) hST)

theorem doneCnt_all_full (fr : List (List (List Nat))) (S : Finset Nat)
    (h : ∀ t, t < fr.length → frameFull fr S t) : doneCnt fr S = fr.length :=
  Nat.le_antisymm (doneCnt_le fr S)
    (doneFrom_ge_of fr S fr.length 0 fr.length (Nat.zero_le _) (by omega)
      (fun t _ ht => h t ht))

/-! ## Window lookup lemmas -/

theorem findPkt_nil (s : Nat) : findPkt [] s = none := rfl

theorem findPkt_cons (p : RPacket) (w : List RPacket) (s : Nat) :
    findPkt (p :: w) s = if p.seq = s then some p else findPkt w s := by
  by_cases h : p.seq = s <;> simp [findPkt, List.find?_cons, h]

theorem findPkt_mem {w : List RPacket} {s : Nat} {p : RPacket}
    (h : findPkt w s = some p) : p ∈ w ∧ p.seq = s := by
  refine ⟨List.mem_of_find?_eq_some h, ?_⟩
  have := List.find?_some h
  simpa using this

theorem findPkt_filter (w : List RPacket) (m s : Nat) :
    findPkt (w.filter (fun p => m < p.seq)) s =
      if m < s then findPkt w s else none := by
  induction w with
  | nil => simp [findPkt]
  | cons a w ih =>
    by_cases hs : a.seq = s
    · subst hs
      by_cases hm : m < a.seq
      · simp [List.filter_cons, hm, findPkt_cons]
      · simp only [List.filter_cons, decide_eq_true_eq, hm, if_false]
        rw [ih]
        simp [hm]
    · by_cases hm : m < a.seq
      · simp only [List.filter_cons, decide_eq_true_eq, hm, if_true]
        rw [findPkt_cons, findPkt_cons]
        simp [hs, ih]
      · simp only [List.filter_cons, decide_eq_true_eq, hm, if_false]
        rw [ih, findPkt_cons]
        simp [hs]

theorem length_ge_card_present (w : List RPacket) (A : Finset Nat)
    (h : ∀ x ∈ A, (findPkt w x).isSome = true) : A.card ≤ w.length := by
  have hsub : A ⊆ (w.map RPacket.seq).toFinset := by
    intro x hx
    cases hfind : findPkt w x with
    | none => have := h x hx; rw [hfind] at this; simp at this
    | some p =>
      obtain ⟨hmem, hseq⟩ := findPkt_mem hfind
      exact List.mem_toFinset.mpr (List.mem_map.mpr ⟨p, hmem, hseq⟩)
  calc A.card ≤ (w.map RPacket.seq).toFinset.card := Finset.card_le_card hsub
    _ ≤ (w.map RPacket.seq).length := List.toFinset_card_le _
    _ = w.length := List.length_map _ _

/-! ## Frame-scan characterization lemmas -/

theorem frameEnd_some_of (w : List RPacket) :
    ∀ d s fuel, d < fuel →
      (∀ e, e < d → ∃ p, findPkt w (s + e) = some p ∧ p.marker = false) →
      (∃ p, findPkt w (s + d) = some p ∧ p.marker = true) →
      frameEnd w s fuel = some (s + d) := by
  intro d
  induction d with
  | zero =>
    intro s fuel hf _ hm
    obtain ⟨p, hp, hmk⟩ := hm
    rw [show s + 0 = s from rfl] at hp ⊢
    cases fuel with
    | zero => omega
    | succ f => simp [frameEnd, hp, hmk]
  | succ d ih =>
    intro s fuel hf hpre hm
    cases fuel with
    | zero => omega
    | succ f =>
      obtain ⟨p0, hp0, hm0⟩ := hpre 0 (by omega)
      rw [show s + 0 = s from rfl] at hp0
      have harr : ∀ e, e < d → ∃ p, findPkt w (s + 1 + e) = some p ∧ p.marker = false := by
        intro e he
        have h2 := hpre (e + 1) (by omega)
        rwa [show s + (e + 1) = s + 1 + e from by omega] at h2
      have hm' : ∃ p, findPkt w (s + 1 + d) = some p ∧ p.marker = true := by
        rwa [show s + (d + 1) = s + 1 + d from by omega] at hm
      have hrec := ih (s + 1) f (by omega) harr hm'
      simp only [frameEnd, hp0, hm0, Bool.false_eq_true, if_false]
      rw [hrec]
      congr 1
      omega

theorem frameEnd_none_of (w : List RPacket) :
    ∀ fuel s d,
      (∀ e, e < d → ∀ p, findPkt w (s + e) = some p → p.marker = false) →
      findPkt w (s + d) = none →
      frameEnd w s fuel = none := by
  intro fuel
  induction fuel with
  | zero => intro s d _ _; rfl
  | succ f ih =>
    intro s d hpre hnone
    simp only [frameEnd]
    cases hf : findPkt w s with
    | none => rfl
    | some p =>
      cases d with
      | zero =>
        rw [show s + 0 = s from rfl] at hnone
        rw [hnone] at hf
        exact absurd hf (by simp)
      | succ d =>
        have hm0 : p.marker = false := by
          have := hpre 0 (by omega) p
          rw [show s + 0 = s from rfl] at this
          exact this hf
        simp only [hm0]
        have hpre' : ∀ e, e < d → ∀ q, findPkt w (s + 1 + e) = some q → q.marker = false := by
          intro e he q hq
          have h2 := hpre (e + 1) (by omega) q
          rw [show s + (e + 1) = s + 1 + e from by omega] at h2
          exact h2 hq
        have hnone' : findPkt w (s + 1 + d) = none := by
          rwa [show s + (d + 1) = s + 1 + d from by omega] at hnone
        simp only [Bool.false_eq_true, if_false]
        exact ih (s + 1) d hpre' hnone'

theorem collectPayload_eq (w : List RPacket) :
    ∀ (L : List (List Nat)) s,
      (∀ e, e < L.length → ∃ p, findPkt w (s + e) = some p ∧ p.payload = L.getD e []) →
      collectPayload w s L.length = concatAll L := by
  intro L
  induction L with
  | nil => intro s _; rfl
  | cons a L ih =>
    intro s h
    obtain ⟨p, hp, hpay⟩ := h 0 (by simp)
    rw [show s + 0 = s from rfl] at hp
    have ih' := ih (s + 1) (fun e he => by
      obtain ⟨q, hq, hqpay⟩ := h (e + 1) (by simpa using Nat.succ_lt_succ he)
      refine ⟨q, ?_, hqpay⟩
      rwa [show s + (e + 1) = s + 1 + e from by omega] at hq)
    simp only [List.length_cons, collectPayload, concatAll, hp]
    rw [ih']
    simp only [List.getD] at hpay
    simp [hpay]

/-! ## Index-run and slice utilities -/

theorem idxRun_mem : ∀ d s i, i ∈ idxRun s d ↔ s ≤ i ∧ i < s + d := by
  intro d
  induction d with
  | zero => intro s i; simp [idxRun]
  | succ d ih =>
    intro s i
    simp only [idxRun, List.mem_cons, ih (s + 1) i]
    omega

theorem idxRun_nodup : ∀ d s, (idxRun s d).Nodup := by
  intro d
  induction d with
  | zero => intro s; simp [idxRun]
  | succ d ih =>
    intro s
    simp only [idxRun, List.nodup_cons]
    exact ⟨fun h => by have := (idxRun_mem d (s + 1) s).mp h; omega, ih (s + 1)⟩

theorem sliceE_append (fr : List (List (List Nat))) :
    ∀ d1 d2 j, sliceE fr j d1 ++ sliceE fr (j + d1) d2 = sliceE fr j (d1 + d2) := by
  intro d1
  induction d1 with
  | zero => intro d2 j; simp [sliceE]
  | succ d1 ih =>
    intro d2 j
    simp only [sliceE, List.cons_append]
    rw [show j + (d1 + 1) = j + 1 + d1 from by omega, ih d2 (j + 1),
      show d1 + 1 + d2 = (d1 + d2) + 1 from by omega]
    simp [sliceE]

/-! ## The forced flag is sticky -/

theorem push_forced (r : SampleBuilder) (p : RPacket) (h : r.forced = true) :
    (r.push p).forced = true := by
  simp only [SampleBuilder.push]
  split
  · exact h
  · split
    · exact h
    · split
      · rfl
      · exact h

theorem pop_forced {r r2 : SampleBuilder} {s : Sample}
    (h : r.pop = some (s, r2)) : r2.forced = r.forced := by
  simp only [SampleBuilder.pop] at h
  rcases hfe : frameEnd r.window r.next r.window.length with _ | m
  · rw [hfe] at h; exact absurd h (by simp)
  · rw [hfe] at h
    simp only [Option.some.injEq, Prod.mk.injEq] at h
    rw [← h.2]

theorem drainGo_forced : ∀ fuel (r : SampleBuilder), r.forced = true →
    ((drainGo fuel r).2).forced = true := by
  intro fuel
  induction fuel with
  | zero => intro r h; exact h
  | succ f ih =>
    intro r h
    simp only [drainGo]
    cases hp : r.pop with
    | none => exact h
    | some sr =>
      obtain ⟨s1, r1⟩ := sr
      have hpf := pop_forced hp
      exact ih r1 (hpf.trans h)

theorem runSB_sticky_forced : ∀ (ps : List RPacket) (r : SampleBuilder),
    r.forced = true → ((runSB ps r).2).forced = true := by
  intro ps
  induction ps with
  | nil => intro r h; exact h
  | cons p ps ih =>
    intro r h
    simp only [runSB]
    exact ih _ (drainGo_forced _ _ (push_forced r p h))

/-! ## Canonical-window bridge lemmas -/

theorem pkt_seq (fr : List (List (List Nat))) (base i : Nat) :
    (pkt fr base i).seq = base + i := rfl

theorem pkt_ts (fr : List (List (List Nat))) (base i : Nat) :
    (pkt fr base i).timestamp = frameOf fr i := rfl

theorem pkt_marker (fr : List (List (List Nat))) (base i : Nat) :
    (pkt fr base i).marker =
      decide (i + 1 = startIdx fr (frameOf fr i + 1)) := rfl

theorem pkt_payload (fr : List (List (List Nat))) (base i : Nat) :
    (pkt fr base i).payload =
      (fr.getD (frameOf fr i) []).getD (i - startIdx fr (frameOf fr i)) [] := rfl

theorem canonFind_pos (fr : List (List (List Nat))) (base : Nat) (S : Finset Nat)
    (j i : Nat) (h1 : i ∈ S) (h2 : i < numPk fr) (h3 : startIdx fr j ≤ i) :
    canonFind fr base S j (base + i) = some (pkt fr base i) := by
  simp only [canonFind, Nat.add_sub_cancel_left]
  rw [if_pos ⟨Nat.le_add_right base i, h1, h2, h3⟩]

theorem canonFind_not_mem (fr : List (List (List Nat))) (base : Nat) (S : Finset Nat)
    (j i : Nat) (h1 : i ∉ S) :
    canonFind fr base S j (base + i) = none := by
  simp only [canonFind, Nat.add_sub_cancel_left]
  rw [if_neg]
  rintro ⟨-, hS, -, -⟩
  exact h1 hS

/-- `pop` on a canonical state whose frame `j` is complete: it emits
frame `j`'s sample and advances the canonical state to frame `j + 1`. -/
theorem pop_full (fr : List (List (List Nat))) (base : Nat) (S : Finset Nat)
    (hne : ∀ f ∈ fr, f ≠ []) {j : Nat} (r : SampleBuilder)
    (hR : Rj fr base S j r) (hj : j < fr.length) (hfull : frameFull fr S j) :
    ∃ r2, r.pop = some (sampleOf fr j, r2) ∧ Rj fr base S (j + 1) r2 := by
  obtain ⟨hnext, hfind, hforced⟩ := hR
  have hsz : 1 ≤ (fr.getD j []).length := frame_size_pos fr hne hj
  have hsucc : startIdx fr (j + 1) = startIdx fr j + (fr.getD j []).length := rfl
  have hmemS : ∀ e, e < (fr.getD j []).length → startIdx fr j + e ∈ S := by
    intro e he
    exact hfull _ (Finset.mem_Ico.mpr ⟨Nat.le_add_right _ _, by omega⟩)
  have hlt : ∀ e, e < (fr.getD j []).length → startIdx fr j + e < numPk fr := by
    intro e he
    have h1 : startIdx fr j + e < startIdx fr (j + 1) := by omega
    have h2 : startIdx fr (j + 1) ≤ startIdx fr fr.length := startIdx_mono fr (by omega)
    have h3 : numPk fr = startIdx fr fr.length := rfl
    omega
  have hfo : ∀ e, e < (fr.getD j []).length →
      frameOf fr (startIdx fr j + e) = j := by
    intro e he
    exact frameOf_eq fr (hlt e he) (Nat.le_add_right _ _) (by omega)
  have hfindE : ∀ e, e < (fr.getD j []).length →
      findPkt r.window (r.next + e) = some (pkt fr base (startIdx fr j + e)) := by
    intro e he
    rw [hnext, show base + startIdx fr j + e = base + (startIdx fr j + e) from by omega,
      hfind]
    exact canonFind_pos fr base S j _ (hmemS e he) (hlt e he) (Nat.le_add_right _ _)
  have hmark : ∀ e, e < (fr.getD j []).length →
      (pkt fr base (startIdx fr j + e)).marker =
        decide (e + 1 = (fr.getD j []).length) := by
    intro e he
    rw [pkt_marker, hfo e he, hsucc]
    exact decide_eq_decide.mpr (by omega)
  have hfuel : (fr.getD j []).length ≤ r.window.length := by
    have hcard : ((Finset.range (fr.getD j []).length).image
        (fun e => r.next + e)).card = (fr.getD j []).length := by
      rw [Finset.card_image_of_injective _ (fun a b h => by omega), Finset.card_range]
    rw [← hcard]
    apply length_ge_card_present
    intro x hx
    obtain ⟨e, he, rfl⟩ := Finset.mem_image.mp hx
    rw [hfindE e (Finset.mem_range.mp he)]
    rfl
  have hfe : frameEnd r.window r.next r.window.length =
      some (r.next + ((fr.getD j []).length - 1)) := by
    apply frameEnd_some_of
    · omega
    · intro e he
      refine ⟨_, hfindE e (by omega), ?_⟩
      rw [hmark e (by omega)]
      exact decide_eq_false (by omega)
    · refine ⟨_, hfindE ((fr.getD j []).length - 1) (by omega), ?_⟩
      rw [hmark _ (by omega)]
      exact decide_eq_true (by omega)
  have hcnt : r.next + ((fr.getD j []).length - 1) + 1 - r.next =
      (fr.getD j []).length := by omega
  have hpayE : ∀ e, e < (fr.getD j []).length →
      ∃ p, findPkt r.window (r.next + e) = some p ∧
        p.payload = (fr.getD j []).getD e [] := by
    intro e he
    refine ⟨_, hfindE e he, ?_⟩
    rw [pkt_payload, hfo e he,
      show startIdx fr j + e - startIdx fr j = e from by omega]
  have hdata := collectPayload_eq r.window (fr.getD j []) r.next hpayE
  have hts : findPkt r.window r.next = some (pkt fr base (startIdx fr j)) := by
    have := hfindE 0 (by omega)
    simpa using this
  have hfo0 : frameOf fr (startIdx fr j) = j := by
    have := hfo 0 (by omega)
    simpa using this
  refine ⟨{ r with
      next := r.next + ((fr.getD j []).length - 1) + 1,
      window := r.window.filter
        (fun p => r.next + ((fr.getD j []).length - 1) < p.seq) },
    ?_, ?_, ?_, ?_⟩
  · simp only [SampleBuilder.pop, hfe, hcnt, hts, hdata, pkt_ts, hfo0]
    rfl
  · simp only [hnext]
    omega
  · intro s
    rw [findPkt_filter]
    by_cases hms : r.next + ((fr.getD j []).length - 1) < s
    · rw [if_pos hms, hfind]
      unfold canonFind
      by_cases hc1 : base ≤ s ∧ s - base ∈ S ∧ s - base < numPk fr ∧
          startIdx fr j ≤ s - base
      · rw [if_pos hc1, if_pos]
        obtain ⟨hb, hS, hn, -⟩ := hc1
        refine ⟨hb, hS, hn, ?_⟩
        rw [hnext] at hms
        omega
      · rw [if_neg hc1, if_neg]
        rintro ⟨hb, hS, hn, hj2⟩
        exact hc1 ⟨hb, hS, hn, Nat.le_trans (startIdx_mono fr (by omega)) hj2⟩
    · rw [if_neg hms]
      unfold canonFind
      rw [if_neg]
      rintro ⟨hb, hS, hn, hj2⟩
      rw [hnext] at hms
      omega
  · exact hforced

/-- `pop` on a canonical state whose frame `j` is incomplete (or past
the last frame): it emits nothing. -/
theorem pop_none (fr : List (List (List Nat))) (base : Nat) (S : Finset Nat)
    {j : Nat} (r : SampleBuilder) (hR : Rj fr base S j r)
    (hstop : ¬ frameFull fr S j ∨ j = fr.length) :
    r.pop = none := by
  obtain ⟨hnext, hfind, -⟩ := hR
  rcases hstop with hnf | hlen
  · have hjlt : j < fr.length := by
      rcases Nat.lt_or_ge j fr.length with h | h
      · exact h
      · exfalso
        apply hnf
        intro i hi
        obtain ⟨h1, h2⟩ := Finset.mem_Ico.mp hi
        have hgd : fr.getD j [] = [] := List.getD_eq_default fr [] h
        have : startIdx fr (j + 1) = startIdx fr j := by
          have : startIdx fr (j + 1) = startIdx fr j + (fr.getD j []).length := rfl
          rw [hgd] at this
          simpa using this
        omega
    obtain ⟨i0, hi0, hi0S⟩ : ∃ i0 ∈ Finset.Ico (startIdx fr j) (startIdx fr (j + 1)),
        i0 ∉ S := by
      by_contra hall
      push_neg at hall
      exact hnf (fun i hi => hall i hi)
    obtain ⟨hge, hlt⟩ := Finset.mem_Ico.mp hi0
    have hpre : ∀ e, e < i0 - startIdx fr j → ∀ p,
        findPkt r.window (r.next + e) = some p → p.marker = false := by
      intro e he p hp
      rw [hnext, show base + startIdx fr j + e = base + (startIdx fr j + e) from by omega,
        hfind] at hp
      unfold canonFind at hp
      by_cases hc : base ≤ base + (startIdx fr j + e) ∧
          base + (startIdx fr j + e) - base ∈ S ∧
          base + (startIdx fr j + e) - base < numPk fr ∧
          startIdx fr j ≤ base + (startIdx fr j + e) - base
      · rw [if_pos hc] at hp
        have hp' : pkt fr base (base + (startIdx fr j + e) - base) = p :=
          Option.some.inj hp
        rw [Nat.add_sub_cancel_left] at hp'
        have hilt : startIdx fr j + e < numPk fr := by
          have := hc.2.2.1
          rwa [Nat.add_sub_cancel_left] at this
        have hfoE : frameOf fr (startIdx fr j + e) = j :=
          frameOf_eq fr hilt (Nat.le_add_right _ _) (by omega)
        rw [← hp', pkt_marker, hfoE]
        exact decide_eq_false (by omega)
      · rw [if_neg hc] at hp
        exact absurd hp (by simp)
    have hnone : findPkt r.window (r.next + (i0 - startIdx fr j)) = none := by
      rw [hnext, show base + startIdx fr j + (i0 - startIdx fr j) = base + i0 from by omega,
        hfind]
      exact canonFind_not_mem fr base S j i0 hi0S
    have hfe := frameEnd_none_of r.window r.window.length r.next (i0 - startIdx fr j)
      hpre hnone
    simp [SampleBuilder.pop, hfe]
  · have h0 : findPkt r.window (r.next + 0) = none := by
      rw [hnext, Nat.add_zero, hfind]
      unfold canonFind
      rw [if_neg]
      rintro ⟨hb, -, hn, -⟩
      have hnum : numPk fr = startIdx fr fr.length := rfl
      rw [hlen] at hb hn
      omega
    have hfe := frameEnd_none_of r.window r.window.length r.next 0
      (fun e he p hp => absurd he (by omega)) h0
    simp [SampleBuilder.pop, hfe]

/-- Draining a canonical state emits exactly the samples of the frames
that are complete but not yet emitted, in order. -/
theorem drainGo_emits (fr : List (List (List Nat))) (base : Nat) (S : Finset Nat)
    (hne : ∀ f ∈ fr, f ≠ []) :
    ∀ d j fuel (r : SampleBuilder), Rj fr base S j r →
      j + d = doneCnt fr S → d ≤ fuel →
      ∃ r2, drainGo fuel r = (sliceE fr j d, r2) ∧ Rj fr base S (j + d) r2 := by
  intro d
  induction d with
  | zero =>
    intro j fuel r hR hdone _
    have hpop : r.pop = none := by
      apply pop_none fr base S r hR
      rcases Nat.lt_or_ge (doneCnt fr S) fr.length with h | h
      · left
        have hstop := doneCnt_stop fr S h
        have hj : j = doneCnt fr S := by omega
        rwa [← hj] at hstop
      · right
        have hle := doneCnt_le fr S
        omega
    cases fuel with
    | zero => exact ⟨r, rfl, by simpa using hR⟩
    | succ f => exact ⟨r, by simp [drainGo, hpop, sliceE], by simpa using hR⟩
  | succ d ih =>
    intro j fuel r hR hdone hfuel
    have hjlt : j < fr.length := by
      have h2 := doneCnt_le fr S
      omega
    have hfull : frameFull fr S j := doneCnt_full fr S (by omega)
    obtain ⟨r2, hpop, hR2⟩ := pop_full fr base S hne r hR hjlt hfull
    cases fuel with
    | zero => omega
    | succ f =>
      obtain ⟨r3, hdrain, hR3⟩ := ih (j + 1) f r2 hR2 (by omega) (by omega)
      refine ⟨r3, ?_, ?_⟩
      · simp only [drainGo, hpop, hdrain, sliceE]
      · rw [show j + (d + 1) = j + 1 + d from by omega]
        exact hR3

/-- `drain` on a canonical state: the window always holds enough packets
(one start-of-frame packet per pending complete frame) for the drain
loop's fuel to finish the job. -/
theorem drain_emits (fr : List (List (List Nat))) (base : Nat) (S : Finset Nat)
    (hne : ∀ f ∈ fr, f ≠ []) {j : Nat} (r : SampleBuilder)
    (hR : Rj fr base S j r) (hj : j ≤ doneCnt fr S) :
    ∃ r2, r.drain = (sliceE fr j (doneCnt fr S - j), r2) ∧
      Rj fr base S (doneCnt fr S) r2 := by
  have hdcle := doneCnt_le fr S
  have hfuel : doneCnt fr S - j ≤ r.window.length := by
    have hinj : Set.InjOn (fun t => base + startIdx fr t)
        (Finset.Ico j (doneCnt fr S)) := by
      intro a ha b hb hab
      simp only [Finset.coe_Ico, Set.mem_Ico] at ha hb
      have hsab : startIdx fr a = startIdx fr b := by
        simpa using hab
      rcases Nat.lt_trichotomy a b with h | h | h
      · have := startIdx_lt_of_lt fr hne h (by omega)
        omega
      · exact h
      · have := startIdx_lt_of_lt fr hne h (by omega)
        omega
    have hcard : ((Finset.Ico j (doneCnt fr S)).image
        (fun t => base + startIdx fr t)).card = doneCnt fr S - j := by
      rw [Finset.card_image_of_injOn hinj, Nat.card_Ico]
    rw [← hcard]
    apply length_ge_card_present
    intro x hx
    obtain ⟨t, ht, rfl⟩ := Finset.mem_image.mp hx
    obtain ⟨ht1, ht2⟩ := Finset.mem_Ico.mp ht
    have hfullt : frameFull fr S t := doneCnt_full fr S ht2
    have htlt : t < fr.length := by omega
    have hszt : 1 ≤ (fr.getD t []).length := frame_size_pos fr hne htlt
    have hsucct : startIdx fr (t + 1) = startIdx fr t + (fr.getD t []).length := rfl
    have hmem : startIdx fr t ∈ S :=
      hfullt _ (Finset.mem_Ico.mpr ⟨Nat.le_refl _, by omega⟩)
    have hltn : startIdx fr t < numPk fr := by
      have h1 := startIdx_strict fr hne htlt
      have h2 : startIdx fr (t + 1) ≤ startIdx fr fr.length :=
        startIdx_mono fr (by omega)
      have h3 : numPk fr = startIdx fr fr.length := rfl
      omega
    rw [hR.2.1, canonFind_pos fr base S j _ hmem hltn (startIdx_mono fr ht1)]
    rfl
  have hmain := drainGo_emits fr base S hne (doneCnt fr S - j) j r.window.length r
    hR (by omega) hfuel
  rwa [show j + (doneCnt fr S - j) = doneCnt fr S from by omega] at hmain

/-- Processing one fresh in-window packet from a canonical state: either
the forced-skip branch fires (and then the next expected packet is still
missing even after the insertion), or the state stays canonical for the
enlarged received-set and the newly completed frames are emitted. -/
theorem step_canon (fr : List (List (List Nat))) (base : Nat) (S : Finset Nat)
    (hne : ∀ f ∈ fr, f ≠ []) {i : Nat} (r : SampleBuilder)
    (hR : Rj fr base S (doneCnt fr S) r) (hiS : i ∉ S) (hin : i < numPk fr) :
    ((processPacket (pkt fr base i) r).2.forced = true ∧
      startIdx fr (doneCnt fr S) ∉ insert i S) ∨
    (∃ r2, processPacket (pkt fr base i) r =
        (sliceE fr (doneCnt fr S) (doneCnt fr (insert i S) - doneCnt fr S), r2) ∧
      Rj fr base (insert i S) (doneCnt fr (insert i S)) r2) := by
  obtain ⟨hnext, hfind, hforced⟩ := hR
  have hfoB := frameOf_bracket fr hin
  have hfole : doneCnt fr S ≤ frameOf fr i := by
    by_contra h
    push_neg at h
    have hfull := doneCnt_full fr S h
    exact hiS (hfull i (Finset.mem_Ico.mpr ⟨hfoB.1, hfoB.2.1⟩))
  have hge : startIdx fr (doneCnt fr S) ≤ i :=
    Nat.le_trans (startIdx_mono fr hfole) hfoB.1
  have hdl : doneCnt fr S < fr.length := by
    have := hfoB.2.2
    omega
  have hnotold : ¬ ((pkt fr base i).seq < r.next) := by
    rw [pkt_seq, hnext]
    omega
  have hnodup : findPkt r.window (pkt fr base i).seq = none := by
    rw [pkt_seq, hfind]
    exact canonFind_not_mem fr base S _ i hiS
  have hfind1 : ∀ s, findPkt (pkt fr base i :: r.window) s =
      canonFind fr base (insert i S) (doneCnt fr S) s := by
    intro s
    rw [findPkt_cons, pkt_seq]
    by_cases hs : base + i = s
    · rw [if_pos hs, ← hs]
      exact (canonFind_pos fr base (insert i S) _ i (Finset.mem_insert_self i S)
        hin hge).symm
    · rw [if_neg hs, hfind]
      by_cases hb : base ≤ s
      · have hsb : s - base ≠ i := by omega
        have hmm : (s - base ∈ insert i S) = (s - base ∈ S) := by
          simp [Finset.mem_insert, hsb]
        simp only [canonFind, hmm]
      · simp only [canonFind]
        rw [if_neg (by rintro ⟨h1, -⟩; exact hb h1),
          if_neg (by rintro ⟨h1, -⟩; exact hb h1)]
  have hpushbase : r.push (pkt fr base i) =
      (if r.maxLate < (pkt fr base i :: r.window).length ∧
          findPkt (pkt fr base i :: r.window) r.next = none then
        { r with window := pkt fr base i :: r.window,
                 next := minSeq (pkt fr base i :: r.window) r.next,
                 forced := true }
      else { r with window := pkt fr base i :: r.window }) := by
    rw [SampleBuilder.push, if_neg hnotold]
    rw [hnodup]
    rfl
  by_cases hC : r.maxLate < (pkt fr base i :: r.window).length ∧
      findPkt (pkt fr base i :: r.window) r.next = none
  · left
    constructor
    · have hpf : (r.push (pkt fr base i)).forced = true := by
        rw [hpushbase, if_pos hC]
      exact drainGo_forced _ _ hpf
    · intro hmem
      have hcontra := hfind1 r.next
      rw [hC.2, hnext] at hcontra
      have hlt2 : startIdx fr (doneCnt fr S) < numPk fr := by
        have h1 := startIdx_strict fr hne hdl
        have h2 : startIdx fr (doneCnt fr S + 1) ≤ startIdx fr fr.length :=
          startIdx_mono fr (by omega)
        have h3 : numPk fr = startIdx fr fr.length := rfl
        omega
      rw [canonFind_pos fr base (insert i S) (doneCnt fr S) _ hmem hlt2
        (Nat.le_refl _)] at hcontra
      exact absurd hcontra (by simp)
  · right
    have hpush : r.push (pkt fr base i) =
        { r with window := pkt fr base i :: r.window } := by
      rw [hpushbase, if_neg hC]
    have hR1 : Rj fr base (insert i S) (doneCnt fr S)
        { r with window := pkt fr base i :: r.window } :=
      ⟨hnext, hfind1, hforced⟩
    have hmono : doneCnt fr S ≤ doneCnt fr (insert i S) :=
      doneCnt_mono fr (Finset.subset_insert i S)
    obtain ⟨r2, hdrain, hR2⟩ := drain_emits fr base (insert i S) hne _ hR1 hmono
    refine ⟨r2, ?_, hR2⟩
    rw [processPacket, hpush]
    exact hdrain

theorem doneCnt_empty (fr : List (List (List Nat)))
    (hne : ∀ f ∈ fr, f ≠ []) : doneCnt fr (∅ : Finset Nat) = 0 := by
  rcases Nat.eq_zero_or_pos (doneCnt fr (∅ : Finset Nat)) with h | h
  · exact h
  · exfalso
    have hful : frameFull fr (∅ : Finset Nat) 0 := doneCnt_full fr ∅ h
    have hlen : (0 : Nat) < fr.length := by
      have := doneCnt_le fr (∅ : Finset Nat)
      omega
    have hsz := frame_size_pos fr hne hlen
    have h00 : startIdx fr 0 = 0 := rfl
    have hs1 : startIdx fr 1 = startIdx fr 0 + (fr.getD 0 []).length := rfl
    have h01 : (0 : Nat) ∈ Finset.Ico (startIdx fr 0) (startIdx fr 1) :=
      Finset.mem_Ico.mpr ⟨by omega, by omega⟩
    simpa using hful 0 h01

theorem Rj_init (fr : List (List (List Nat))) (base : Nat)
    (hne : ∀ f ∈ fr, f ≠ []) (ml : Nat) (dp : Depacketizer) (cr : Nat) :
    Rj fr base ∅ (doneCnt fr (∅ : Finset Nat))
      (SampleBuilder.new ml dp cr base) := by
  rw [doneCnt_empty fr hne]
  refine ⟨?_, ?_, rfl⟩
  · have h00 : startIdx fr 0 = 0 := rfl
    simp [SampleBuilder.new, h00]
  · intro s
    rw [show (SampleBuilder.new ml dp cr base).window = [] from rfl, findPkt_nil]
    unfold canonFind
    rw [if_neg]
    rintro ⟨-, hS, -, -⟩
    exact absurd hS (by simp)

theorem doneCnt_range_numPk (fr : List (List (List Nat))) :
    doneCnt fr (Finset.range (numPk fr)) = fr.length := by
  apply doneCnt_all_full
  intro t ht i hi
  obtain ⟨h1, h2⟩ := Finset.mem_Ico.mp hi
  have h3 : numPk fr = startIdx fr fr.length := rfl
  have h4 : startIdx fr (t + 1) ≤ startIdx fr fr.length := startIdx_mono fr ht
  exact Finset.mem_range.mpr (by omega)

/-- Running any list of fresh in-window packets from a canonical state:
either a forced skip happened somewhere (and the flag records it), or
the final state is canonical for the whole received-set and the emitted
samples are exactly the newly completed frames in order. -/
theorem runSB_canon (fr : List (List (List Nat))) (base : Nat)
    (hne : ∀ f ∈ fr, f ≠ []) :
    ∀ (U : List Nat) (S : Finset Nat) (r : SampleBuilder),
      Rj fr base S (doneCnt fr S) r → (∀ i ∈ U, i < numPk fr) →
      (∀ i ∈ U, i ∉ S) → U.Nodup →
      ((runSB (U.map (pkt fr base)) r).2.forced = true) ∨
      (∃ r2, runSB (U.map (pkt fr base)) r =
          (sliceE fr (doneCnt fr S)
            (doneCnt fr (S ∪ U.toFinset) - doneCnt fr S), r2) ∧
        Rj fr base (S ∪ U.toFinset) (doneCnt fr (S ∪ U.toFinset)) r2) := by
  intro U
  induction U with
  | nil =>
    intro S r hR _ _ _
    right
    refine ⟨r, ?_, ?_⟩
    · simp [runSB, sliceE]
    · simpa using hR
  | cons i U ih =>
    intro S r hR hbound hfresh hnodup
    have hbound' : ∀ x ∈ U, x < numPk fr :=
      fun x hx => hbound x (List.mem_cons_of_mem i hx)
    have hfresh0 : i ∉ S := hfresh i (List.mem_cons_self i U)
    have hU : insert i S ∪ U.toFinset = S ∪ (i :: U).toFinset := by
      rw [List.toFinset_cons, Finset.insert_union, Finset.union_insert]
    rcases step_canon fr base S hne r hR hfresh0
        (hbound i (List.mem_cons_self i U)) with ⟨hf, -⟩ | ⟨r2, hstep, hR2⟩
    · left
      simp only [List.map_cons, runSB]
      exact runSB_sticky_forced _ _ hf
    · have hfresh' : ∀ x ∈ U, x ∉ insert i S := by
        intro x hx
        simp only [Finset.mem_insert, not_or]
        exact ⟨by rintro rfl; exact (List.nodup_cons.mp hnodup).1 hx,
          hfresh x (List.mem_cons_of_mem i hx)⟩
      rcases ih (insert i S) r2 hR2 hbound' hfresh'
          (List.nodup_cons.mp hnodup).2 with hf | ⟨r3, hrun, hR3⟩
      · left
        simp only [List.map_cons, runSB, hstep]
        exact hf
      · right
        rw [hU] at hrun hR3
        refine ⟨r3, ?_, hR3⟩
        have hd01 : doneCnt fr S ≤ doneCnt fr (insert i S) :=
          doneCnt_mono fr (Finset.subset_insert i S)
        have hd12 : doneCnt fr (insert i S) ≤
            doneCnt fr (S ∪ (i :: U).toFinset) := by
          rw [← hU]
          exact doneCnt_mono fr Finset.subset_union_left
        simp only [List.map_cons, runSB, hstep, hrun]
        have happ := sliceE_append fr
          (doneCnt fr (insert i S) - doneCnt fr S)
          (doneCnt fr (S ∪ (i :: U).toFinset) - doneCnt fr (insert i S))
          (doneCnt fr S)
        rw [show doneCnt fr S + (doneCnt fr (insert i S) - doneCnt fr S) =
            doneCnt fr (insert i S) from by omega] at happ
        rw [happ, show (doneCnt fr (insert i S) - doneCnt fr S) +
            (doneCnt fr (S ∪ (i :: U).toFinset) - doneCnt fr (insert i S)) =
            doneCnt fr (S ∪ (i :: U).toFinset) - doneCnt fr S from by omega]

/-- Running the stream in strictly increasing sequence order never takes
the forced-skip branch and ends canonical. -/
theorem runSB_inorder (fr : List (List (List Nat))) (base : Nat)
    (hne : ∀ f ∈ fr, f ≠ []) :
    ∀ d s (r : SampleBuilder),
      Rj fr base (Finset.range s) (doneCnt fr (Finset.range s)) r →
      s + d = numPk fr →
      ∃ r2, runSB ((idxRun s d).map (pkt fr base)) r =
          (sliceE fr (doneCnt fr (Finset.range s))
            (doneCnt fr (Finset.range (s + d)) -
              doneCnt fr (Finset.range s)), r2) ∧
        Rj fr base (Finset.range (s + d))
          (doneCnt fr (Finset.range (s + d))) r2 := by
  intro d
  induction d with
  | zero =>
    intro s r hR _
    exact ⟨r, by simp [idxRun, runSB, sliceE], by simpa using hR⟩
  | succ d ih =>
    intro s r hR hnum
    have hfresh : s ∉ Finset.range s := by simp
    have hbound : s < numPk fr := by omega
    rcases step_canon fr base (Finset.range s) hne r hR hfresh hbound with
      ⟨-, hnotin⟩ | ⟨r2, hstep, hR2⟩
    · exfalso
      apply hnotin
      rw [← Finset.range_succ, Finset.mem_range]
      rcases Nat.eq_zero_or_pos (doneCnt fr (Finset.range s)) with h0 | hpos
      · rw [h0]
        have h00 : startIdx fr 0 = 0 := rfl
        omega
      · obtain ⟨t, ht⟩ : ∃ t, doneCnt fr (Finset.range s) = t + 1 :=
          ⟨doneCnt fr (Finset.range s) - 1, by omega⟩
        have htlt : t < fr.length := by
          have := doneCnt_le fr (Finset.range s)
          omega
        have hfullt : frameFull fr (Finset.range s) t :=
          doneCnt_full fr _ (by omega)
        have hszt : 1 ≤ (fr.getD t []).length := frame_size_pos fr hne htlt
        have hsucct : startIdx fr (t + 1) = startIdx fr t + (fr.getD t []).length :=
          rfl
        have hlast : startIdx fr (t + 1) - 1 ∈ Finset.range s :=
          hfullt _ (Finset.mem_Ico.mpr ⟨by omega, by omega⟩)
        have := Finset.mem_range.mp hlast
        rw [ht]
        omega
    · have hins : insert s (Finset.range s) = Finset.range (s + 1) :=
        (Finset.range_succ).symm
      rw [hins] at hstep hR2
      obtain ⟨r3, hrun, hR3⟩ := ih (s + 1) r2 hR2 (by omega)
      refine ⟨r3, ?_, ?_⟩
      · simp only [idxRun, List.map_cons, runSB, hstep, hrun]
        have hd01 : doneCnt fr (Finset.range s) ≤
            doneCnt fr (Finset.range (s + 1)) :=
          doneCnt_mono fr (by intro x hx; simp at hx ⊢; omega)
        have hd12 : doneCnt fr (Finset.range (s + 1)) ≤
            doneCnt fr (Finset.range (s + 1 + d)) :=
          doneCnt_mono fr (by intro x hx; simp at hx ⊢; omega)
        have happ := sliceE_append fr
          (doneCnt fr (Finset.range (s + 1)) - doneCnt fr (Finset.range s))
          (doneCnt fr (Finset.range (s + 1 + d)) -
            doneCnt fr (Finset.range (s + 1)))
          (doneCnt fr (Finset.range s))
        rw [show doneCnt fr (Finset.range s) +
            (doneCnt fr (Finset.range (s + 1)) - doneCnt fr (Finset.range s)) =
            doneCnt fr (Finset.range (s + 1)) from by omega] at happ
        rw [happ, show s + (d + 1) = s + 1 + d from by omega,
          show (doneCnt fr (Finset.range (s + 1)) - doneCnt fr (Finset.range s)) +
            (doneCnt fr (Finset.range (s + 1 + d)) -
              doneCnt fr (Finset.range (s + 1))) =
            doneCnt fr (Finset.range (s + 1 + d)) -
              doneCnt fr (Finset.range s) from by omega]
      · rw [show s + (d + 1) = s + 1 + d from by omega]
        exact hR3

/-- C7: pushing a packet stream in any arrival order that the bounded
window absorbs (no forced skip fires) and draining after each push
yields exactly the sample sequence of the in-order arrival — all frames,
in order, without duplication; in particular, for a video frame split
over sequence numbers 1, 2, 3 arriving as 1, 3, 2, nothing is emitted
until sequence 2 arrives, and then exactly one sample is emitted. -/
theorem c7_reordering_absorbed (base : Nat) (fr : List (List (List Nat)))
    (ps : List RPacket)
    (hne : ∀ f ∈ fr, f ≠ [])
    (hperm : ps.Perm (mkPackets fr base))
    (hforce : (runSB ps (SampleBuilder.new 10 Depacketizer.vp8 90000 base)).2.forced
        = false) :
    (runSB ps (SampleBuilder.new 10 Depacketizer.vp8 90000 base)).1 =
      (runSB (mkPackets fr base)
        (SampleBuilder.new 10 Depacketizer.vp8 90000 base)).1 ∧
    (runSB (mkPackets fr base)
        (SampleBuilder.new 10 Depacketizer.vp8 90000 base)).1 =
      sliceE fr 0 fr.length ∧
    (runSB [sp1] vInit).1 = [] ∧
    (runSB [sp1, sp3] vInit).1 = [] ∧
    (runSB [sp1, sp3, sp2] vInit).1 = [sampleOf frScenario 0] := by
  have hinit := Rj_init fr base hne 10 Depacketizer.vp8 90000
  have e0 : doneCnt fr (Finset.range 0) = 0 := by
    rw [Finset.range_zero]
    exact doneCnt_empty fr hne
  have eN : doneCnt fr (Finset.range (numPk fr)) = fr.length :=
    doneCnt_range_numPk fr
  have hr0 : Rj fr base (Finset.range 0) (doneCnt fr (Finset.range 0))
      (SampleBuilder.new 10 Depacketizer.vp8 90000 base) := by
    rw [Finset.range_zero]
    exact Rj_init fr base hne 10 Depacketizer.vp8 90000
  obtain ⟨rI, hrunI, -⟩ := runSB_inorder fr base hne (numPk fr) 0
    (SampleBuilder.new 10 Depacketizer.vp8 90000 base) hr0 (by omega)
  rw [Nat.zero_add] at hrunI
  have hin1 : (runSB (mkPackets fr base)
      (SampleBuilder.new 10 Depacketizer.vp8 90000 base)).1 =
      sliceE fr 0 fr.length := by
    rw [show mkPackets fr base = (idxRun 0 (numPk fr)).map (pkt fr base) from rfl,
      hrunI, e0, eN] at *
    rw [hrunI]
    simp
  have hmem_mk : ∀ p ∈ ps, p = pkt fr base (p.seq - base) := by
    intro p hp
    have hp2 : p ∈ mkPackets fr base := hperm.mem_iff.mp hp
    obtain ⟨i2, -, rfl⟩ := List.mem_map.mp hp2
    rw [pkt_seq, Nat.add_sub_cancel_left]
  have hUmap : (ps.map (fun p => p.seq - base)).map (pkt fr base) = ps := by
    rw [List.map_map]
    have hcg : ∀ p ∈ ps, (pkt fr base ∘ fun q : RPacket => q.seq - base) p = id p := by
      intro p hp
      simp only [Function.comp_apply, id_eq]
      exact (hmem_mk p hp).symm
    rw [List.map_congr_left hcg, List.map_id]
  have hmkid : (mkPackets fr base).map (fun p => p.seq - base) =
      idxRun 0 (numPk fr) := by
    rw [show mkPackets fr base = (idxRun 0 (numPk fr)).map (pkt fr base) from rfl,
      List.map_map]
    have hcg : ∀ x ∈ idxRun 0 (numPk fr),
        ((fun p : RPacket => p.seq - base) ∘ pkt fr base) x = id x := by
      intro x hx
      simp only [Function.comp_apply, pkt_seq, Nat.add_sub_cancel_left, id_eq]
    rw [List.map_congr_left hcg, List.map_id]
  have hUperm : (ps.map (fun p => p.seq - base)).Perm (idxRun 0 (numPk fr)) :=
    hmkid ▸ hperm.map (fun p : RPacket => p.seq - base)
  have hUnodup : (ps.map (fun p => p.seq - base)).Nodup :=
    hUperm.nodup_iff.mpr (idxRun_nodup _ _)
  have hUbound : ∀ i ∈ ps.map (fun p => p.seq - base), i < numPk fr := by
    intro i hi
    have h1 := hUperm.mem_iff.mp hi
    have h2 := (idxRun_mem _ _ _).mp h1
    omega
  have hUfresh : ∀ i ∈ ps.map (fun p => p.seq - base), i ∉ (∅ : Finset Nat) := by
    simp
  rcases runSB_canon fr base hne (ps.map fun p => p.seq - base) ∅
      (SampleBuilder.new 10 Depacketizer.vp8 90000 base) hinit hUbound hUfresh
      hUnodup with hf | ⟨r4, hrun4, -⟩
  · rw [hUmap] at hf
    rw [hf] at hforce
    exact absurd hforce (by simp)
  · rw [hUmap] at hrun4
    have hTF : (∅ : Finset Nat) ∪ (ps.map fun p => p.seq - base).toFinset =
        Finset.range (numPk fr) := by
      rw [Finset.empty_union]
      ext x
      rw [List.mem_toFinset, hUperm.mem_iff, Finset.mem_range, idxRun_mem]
      omega
    rw [hTF] at hrun4
    refine ⟨?_, hin1, by decide, by decide, by decide⟩
    rw [hrun4, hin1, doneCnt_empty fr hne, eN]
    simp

/-- C7 witness: the 1,3,2 arrival of the three-packet scenario frame is
a permutation of the in-order stream, triggers no forced skip, and
produces the same (single-sample) output as the in-order arrival. -/
theorem c7_reordering_witness :
    (∀ f ∈ frScenario, f ≠ []) ∧
    [sp1, sp3, sp2].Perm (mkPackets frScenario 1) ∧
    (runSB [sp1, sp3, sp2] vInit).2.forced = false ∧
    (runSB [sp1, sp3, sp2] vInit).1 =
      (runSB (mkPackets frScenario 1) vInit).1 :=
  ⟨by decide, by decide, by decide,
   (c7_reordering_absorbed 1 frScenario [sp1, sp3, sp2] (by decide) (by decide)
     (by decide)).1⟩
